import Mathlib

/-!
Shallow embedding of `src/agent/crewai_sample_agent/agent.py` (CopilotKit
open-mcp-client sample agent): the catalog unifier
`convert_mcp_tool_to_json_format`, the session manager
`MCPToolManager.initialize_servers` / `execute_tool` / `cleanup`, and the
bounded dispatch loop `SampleAgentFlow.chat` / `process_llm_call` /
`handle_tool_calls`.

Python values that cross the boundaries we verify are modelled explicitly:
JSON-like values as `JValue` (with Python truthiness), attribute presence as
`Option`, exceptions as `Except`, and the external collaborators (MCP server
connection, MCP tool invocation, the LLM call) as oracle functions supplied
as arguments. Resource and control-flow effects of one `chat` run (the
`finally`-guaranteed `cleanup`, the LLM calls, the counter increments, the
tool batches) are recorded as an explicit event trace.
-/

namespace OpenMcp

/-- A JSON-like Python value (dict/list/str/num/bool/None). Dicts are
association lists in insertion order; lookups return the first binding. -/
inductive JValue where
  | null
  | bool (b : Bool)
  | num (n : Int)
  | str (s : String)
  | arr (xs : List JValue)
  | obj (fields : List (String × JValue))

/-- Python truthiness of a `JValue` (`if tool.inputSchema:` etc.):
None, empty containers, empty strings and 0 are falsy. -/
def JValue.truthy : JValue → Bool
  | .null => false
  | .bool b => b
  | .num n => n != 0
  | .str s => s != ""
  | .arr xs => !xs.isEmpty
  | .obj fs => !fs.isEmpty

/-- Whether the value is a Python dict (`isinstance(x, dict)`). -/
def JValue.isObj : JValue → Bool
  | .obj _ => true
  | _ => false

/-- Python `d.get(k, default)` on a dict represented as an association list. -/
def jGet (fields : List (String × JValue)) (k : String) (dflt : JValue) : JValue :=
  match fields.lookup k with
  | some v => v
  | none => dflt

/-- A provider-native MCP tool object as seen through `hasattr`/`getattr`:
`none` in a field means the attribute is absent on the Python object. -/
structure MCPTool where
  name : Option String
  description : Option String
  inputSchema : Option JValue

/-- The `parameters` object of the converted OpenAI-format tool:
always carries the literal `"type": "object"` plus the extracted
`properties` and `required` values. -/
structure ToolParameters where
  type : String
  properties : JValue
  required : JValue

/-- The converted tool returned by `convert_mcp_tool_to_json_format`
(the `"function"` payload; the outer `"type": "function"` wrapper carries
no further information). -/
structure ConvertedTool where
  name : String
  description : String
  parameters : ToolParameters

/-- Embedding of `convert_mcp_tool_to_json_format` (agent.py lines 69-96).
Raising `ValueError` is modelled as `Except.error`. The source first checks
`hasattr(tool, 'name') and hasattr(tool, 'inputSchema')`, then extracts
`properties`/`required` only when `tool.inputSchema` is truthy and a dict,
and defaults the description to `"Tool: <name>"` only when the attribute is
absent (`getattr` three-argument form). -/
def convert_mcp_tool_to_json_format (tool : MCPTool) : Except String ConvertedTool :=
  if tool.name.isNone || tool.inputSchema.isNone then
    .error "Invalid tool object"
  else
    let n := tool.name.getD ""
    let pr : JValue × JValue :=
      match tool.inputSchema with
      | some s =>
        if s.truthy then
          match s with
          | .obj fields => (jGet fields "properties" (.obj []), jGet fields "required" (.arr []))
          | _ => (.obj [], .arr [])
        else (.obj [], .arr [])
      | none => (.obj [], .arr [])
    .ok { name := n
          description := tool.description.getD ("Tool: " ++ n)
          parameters := { type := "object", properties := pr.1, required := pr.2 } }

/-! ## Session manager: `MCPToolManager.initialize_servers`

A Python dict with string keys is modelled as an insertion-ordered
association list with unique keys; assignment replaces the first (unique)
binding in place or appends a fresh one, exactly like CPython item
assignment and `dict.update`. -/

/-- Python dict item assignment `d[k] = v` on an association list with
unique keys: replace the existing binding in place, else append. -/
def dictInsert {α : Type} : List (String × α) → String → α → List (String × α)
  | [], k, v => [(k, v)]
  | (k', v') :: rest, k, v =>
    if k' = k then (k, v) :: rest else (k', v') :: dictInsert rest k v

/-- Python `d.update(new)` where `new` is built from pairs in order:
equivalent to assigning each pair in sequence (later duplicates win). -/
def dictUpdate {α : Type} (d : List (String × α)) (l : List (String × α)) :
    List (String × α) :=
  l.foldl (fun acc p => dictInsert acc p.1 p.2) d

/-- The `transport` field of an MCP connection config: `"stdio"`, `"sse"`,
or any other (unsupported) string. -/
inductive Transport where
  | stdio
  | sse
  | other (s : String)
deriving DecidableEq

/-- One value of the `mcp_config` mapping. The connection parameters
(command and args, or url) are opaque to the control flow we verify. -/
structure ServerConfig where
  transport : Transport
  params : String
deriving DecidableEq

/-- The `mcp_config` mapping, in Python dict iteration (insertion) order. -/
abbrev MCPConfig := List (String × ServerConfig)

/-- Outcome of `_initialize_stdio_server` / `_initialize_sse_server` for one
provider, as an oracle value: `ok` is a successful connect + handshake +
`list_tools` (the session is an abstract id); `failed` is the internal
`except` path returning `(None, [])`; `raised` is an exception that escapes
to the `try` in `initialize_servers` (caught there, `continue`). -/
inductive InitOutcome where
  | ok (session : Nat) (tools : List MCPTool)
  | failed
  | raised (e : String)

/-- The three accumulators of `initialize_servers`: the converted tool list
`all_tools`, the dispatch table `mcp_tools_dict` (tool name to owning
session and native tool), and `self.active_sessions`. -/
structure InitResult where
  all_tools : List ConvertedTool
  mcp_tools_dict : List (String × (Nat × MCPTool))
  active_sessions : List (String × Nat)

/-- Attribute access `tool.name` at the dispatch-dict comprehension site;
only reached after every tool in the list converted successfully, which
implies the attribute is present. -/
def MCPTool.nameD (t : MCPTool) : String := t.name.getD ""

/-- One iteration of the `for server_name, config in mcp_config.items()`
loop of `initialize_servers` (agent.py lines 113-131), faithful to the
source order: unsupported transports `continue`; a `(None, [])` or raising
initializer contributes nothing (`if session and tools`); an empty tool
list from a successful initializer also fails that guard; otherwise the
session is registered first, then each tool is converted (a `ValueError`
there is caught by the surrounding `try`, leaving the session registered
but contributing no tools), then the dispatch dict and `all_tools` grow. -/
def initStep (init : String → ServerConfig → InitOutcome)
    (acc : InitResult) (entry : String × ServerConfig) : InitResult :=
  match entry.2.transport with
  | .other _ => acc
  | _ =>
    match init entry.1 entry.2 with
    | .raised _ => acc
    | .failed => acc
    | .ok session tools =>
      if tools.isEmpty then acc
      else
        let acc1 := { acc with
          active_sessions := dictInsert acc.active_sessions entry.1 session }
        match tools.mapM convert_mcp_tool_to_json_format with
        | .error _ => acc1
        | .ok mcp_tools_json =>
          { acc1 with
            mcp_tools_dict := dictUpdate acc1.mcp_tools_dict
              (tools.map (fun t => (t.nameD, (session, t))))
            all_tools := acc1.all_tools ++ mcp_tools_json }

/-- Embedding of `MCPToolManager.initialize_servers` (agent.py lines
106-133), with per-provider connection behaviour supplied by the `init`
oracle. -/
def initialize_servers (mcp_config : MCPConfig)
    (init : String → ServerConfig → InitOutcome) : InitResult :=
  mcp_config.foldl (initStep init) ⟨[], [], []⟩

/-! ## Dispatch loop: `chat`, `process_llm_call`, `handle_tool_calls` -/

/-- One tool-call request from the model (`tool_call["id"]`,
`tool_call["function"]["name"]`, `tool_call["function"]["arguments"]`);
`arguments` is `none` when `json.loads` would raise `JSONDecodeError`,
which the source degrades to an empty dict. -/
structure ToolCall where
  id : String
  name : String
  arguments : Option JValue

/-- A conversation message. The assistant message carries the tool-call
requests returned by the model; a tool message carries the stringified
result and the originating `tool_call_id`. -/
inductive Message where
  | user (content : String)
  | assistant (content : String) (tool_calls : List ToolCall)
  | tool (content : String) (tool_call_id : String)

/-- Exceptions that can propagate out of the dispatch loop body:
a failure of the model-invocation boundary, or an exception raised by a
local built-in tool handler (e.g. `KeyError` in the weather lambda). -/
inductive AgentErr where
  | invocation (e : String)
  | handlerError (e : String)

/-- Observable control-flow and resource events of one `chat` run:
an LLM call, a `tool_call_count` increment (with the new value), the start
of a tool-calls batch execution, and `MCPToolManager.cleanup`. -/
inductive Event where
  | llmCall (idx : Nat)
  | counterInc (value : Nat)
  | execBatch
  | cleanup
deriving DecidableEq

/-- The mutable per-run state touched by the loop: `self.state.messages`,
`self.tool_call_count`, plus the recorded event trace. -/
structure AgentSt where
  messages : List Message
  tool_call_count : Nat
  events : List Event

/-- Outcome of `session.call_tool` for one invocation, as an oracle value;
`ok` carries the stringified result. -/
inductive InvokeOutcome where
  | ok (result : String)
  | raised (e : String)

/-- The `tool_context` built once in `chat` plus the host-action names from
`self.state.copilotkit.actions` and the provider-invocation oracle. -/
structure Ctx where
  hostActions : List String
  mcp_tool_names : List String
  mcp_tools_dict : List (String × (Nat × MCPTool))
  invoke : Nat → String → JValue → InvokeOutcome

/-- Python `str()` of a `JValue` as used in f-strings and `str(result)`.
Strings, numbers, booleans and None render exactly; the rendering of
nested containers is abstracted (no verified claim depends on it). -/
def pyStr : JValue → String
  | .null => "None"
  | .bool b => if b then "True" else "False"
  | .num n => toString n
  | .str s => s
  | .arr _ => "<list>"
  | .obj _ => "<dict>"

/-- The `get_weather` lambda from `tool_handlers` (agent.py line 66):
`lambda args: f"The weather for ... is 70 degrees."` - subscripting
`args['location']` raises when the key is absent or `args` is not a dict. -/
def get_weather_handler (args : JValue) : Except AgentErr String :=
  match args with
  | .obj fields =>
    match fields.lookup "location" with
    | some v => .ok ("The weather for " ++ pyStr v ++ " is 70 degrees.")
    | none => .error (.handlerError "KeyError: location")
  | _ => .error (.handlerError "TypeError: not a dict")

/-- The `tool_handlers` mapping (agent.py lines 65-67): only `get_weather`. -/
def tool_handlers (name : String) : Option (JValue → Except AgentErr String) :=
  if name = "get_weather" then some get_weather_handler else none

/-- Argument parsing in `handle_tool_calls`: `json.loads` failure degrades
to an empty dict. -/
def parseToolCallArgs (tc : ToolCall) : JValue := tc.arguments.getD (.obj [])

/-- Embedding of `MCPToolManager.execute_tool` (agent.py lines 192-205):
every exception is caught internally and converted to a textual result, so
the function is total. -/
def execute_tool (invoke : Nat → String → JValue → InvokeOutcome)
    (tool_name : String) (tool_args : JValue)
    (mcp_tools_dict : List (String × (Nat × MCPTool))) : String :=
  match mcp_tools_dict.lookup tool_name with
  | none => "Tool " ++ tool_name ++ " not found in available MCP tools"
  | some (session, _) =>
    match invoke session tool_name tool_args with
    | .ok r => r
    | .raised e => "Error executing tool " ++ tool_name ++ ": " ++ e

/-- The `for tool_call in tool_calls` loop body of `handle_tool_calls`
(agent.py lines 323-365). It touches only `self.state.messages`: host
actions are skipped with no appended message; MCP tool names go through
`execute_tool` (total); otherwise a local handler runs (and may raise,
which aborts the loop and propagates); an unknown name appends the literal
`"Unknown tool: <name>"` result. -/
def exec_tool_calls (ctx : Ctx) :
    List ToolCall → List Message → Except (AgentErr × List Message) (List Message)
  | [], msgs => .ok msgs
  | tc :: rest, msgs =>
    let tool_call_args := parseToolCallArgs tc
    if tc.name ∈ ctx.hostActions then
      exec_tool_calls ctx rest msgs
    else if tc.name ∈ ctx.mcp_tool_names then
      let result := execute_tool ctx.invoke tc.name tool_call_args ctx.mcp_tools_dict
      exec_tool_calls ctx rest (msgs ++ [.tool result tc.id])
    else
      match tool_handlers tc.name with
      | some handler =>
        match handler tool_call_args with
        | .ok result => exec_tool_calls ctx rest (msgs ++ [.tool result tc.id])
        | .error e => .error (e, msgs)
      | none =>
        exec_tool_calls ctx rest (msgs ++ [.tool ("Unknown tool: " ++ tc.name) tc.id])

/-- Outcome of one `copilotkit_stream(completion(...))` call, as an oracle
value indexed by the number of LLM calls made so far in the run. -/
inductive LLMOutcome where
  | raised (e : String)
  | reply (content : String) (tool_calls : List ToolCall)

/-- `self.MAX_TOOL_CALLS` (agent.py line 224). -/
def MAX_TOOL_CALLS : Nat := 10

/-- Embedding of the mutually recursive `process_llm_call` /
`handle_tool_calls` pair (agent.py lines 275-368) as one function. An LLM
call is made and the assistant message appended unconditionally; with no
tool calls the run ends; otherwise `tool_call_count` is incremented (never
reset), the `>= MAX_TOOL_CALLS` guard stops the recursion without executing
the pending calls, and otherwise the batch runs and the loop recurses.
Exceptions propagate as `Except.error` carrying the state at raise time. -/
def process_llm_call (llm : Nat → LLMOutcome) (ctx : Ctx)
    (idx : Nat) (σ : AgentSt) : Except (AgentErr × AgentSt) AgentSt :=
  match llm idx with
  | .raised e =>
    .error (.invocation e, { σ with events := σ.events ++ [.llmCall idx] })
  | .reply content tool_calls =>
    if tool_calls.isEmpty then
      .ok { σ with
        messages := σ.messages ++ [.assistant content tool_calls]
        events := σ.events ++ [.llmCall idx] }
    else if hstop : MAX_TOOL_CALLS ≤ σ.tool_call_count + 1 then
      .ok { σ with
        messages := σ.messages ++ [.assistant content tool_calls]
        tool_call_count := σ.tool_call_count + 1
        events := σ.events ++ [.llmCall idx, .counterInc (σ.tool_call_count + 1)] }
    else
      match exec_tool_calls ctx tool_calls (σ.messages ++ [.assistant content tool_calls]) with
      | .error (e, msgs) =>
        .error (e, { σ with
          messages := msgs
          tool_call_count := σ.tool_call_count + 1
          events := σ.events ++ [.llmCall idx, .counterInc (σ.tool_call_count + 1), .execBatch] })
      | .ok msgs =>
        process_llm_call llm ctx (idx + 1) { σ with
          messages := msgs
          tool_call_count := σ.tool_call_count + 1
          events := σ.events ++ [.llmCall idx, .counterInc (σ.tool_call_count + 1), .execBatch] }
termination_by MAX_TOOL_CALLS - σ.tool_call_count
decreasing_by
  omega

/-- The observable outcome of `SampleAgentFlow.chat`: the returned route
string, the final conversation and counter, and the event trace. -/
structure ChatResult where
  route : String
  messages : List Message
  tool_call_count : Nat
  events : List Event

/-- The `tool_context` construction in `chat` (agent.py lines 246-261):
`mcp_tool_names` is read off the converted MCP tool list. -/
def buildCtx (ir : InitResult) (hostActions : List String)
    (invoke : Nat → String → JValue → InvokeOutcome) : Ctx :=
  { hostActions := hostActions
    mcp_tool_names := ir.all_tools.map (fun t => t.name)
    mcp_tools_dict := ir.mcp_tools_dict
    invoke := invoke }

/-- Embedding of `SampleAgentFlow.chat` (agent.py lines 232-273): the body
runs under `try`; `except Exception` catches every loop/body exception and
still returns `"route_end"`; the `finally` block runs
`MCPToolManager.cleanup` exactly once on every exit path (`cleanup` itself
swallows its own failures). The `Except` in the result type is the caller
boundary: the source never lets an exception escape `chat`, so the result
is always `.ok`. -/
def chat (mcp_config : MCPConfig) (init : String → ServerConfig → InitOutcome)
    (invoke : Nat → String → JValue → InvokeOutcome)
    (llm : Nat → LLMOutcome) (hostActions : List String)
    (messages0 : List Message) : Except AgentErr ChatResult :=
  let ctx := buildCtx (initialize_servers mcp_config init) hostActions invoke
  match process_llm_call llm ctx 0 { messages := messages0, tool_call_count := 0, events := [] } with
  | .ok σ =>
    .ok { route := "route_end", messages := σ.messages
          tool_call_count := σ.tool_call_count, events := σ.events ++ [.cleanup] }
  | .error (_, σ) =>
    .ok { route := "route_end", messages := σ.messages
          tool_call_count := σ.tool_call_count, events := σ.events ++ [.cleanup] }

/-! ## Derived observations used by the theorems -/

/-- Recognizer for the cleanup event. -/
def isCleanup : Event → Bool
  | .cleanup => true
  | _ => false

/-- Recognizer for batch-execution events. -/
def isExecBatch : Event → Bool
  | .execBatch => true
  | _ => false

/-- Recognizer for LLM-call events. -/
def isLLMCall : Event → Bool
  | .llmCall _ => true
  | _ => false

/-- How many times `cleanup` ran in a trace. -/
def cleanupCount (evs : List Event) : Nat := evs.countP isCleanup

/-- The successive values taken by `tool_call_count`, in order. -/
def counterTrace (evs : List Event) : List Nat :=
  evs.filterMap fun e =>
    match e with
    | .counterInc n => some n
    | _ => none

/-- Whether an `Except` result is a success. -/
def exceptOk {ε α : Type} : Except ε α → Bool
  | .ok _ => true
  | .error _ => false

/-- A tool call whose dispatch step cannot raise: host actions and MCP
tools never raise (all their exceptions are caught below the loop), and
unknown names degrade to a textual result; only a raising local handler is
excluded. -/
def execSafe (ctx : Ctx) (tc : ToolCall) : Bool :=
  if tc.name ∈ ctx.hostActions then true
  else if tc.name ∈ ctx.mcp_tool_names then true
  else
    match tool_handlers tc.name with
    | some handler => exceptOk (handler (parseToolCallArgs tc))
    | none => true

/-- State reached by the loop body, on both the normal and the exceptional
path (Python execution continues into `finally` either way). -/
def resSt : Except (AgentErr × AgentSt) AgentSt → AgentSt
  | .ok σ => σ
  | .error (_, σ) => σ

/-! ## Concrete scenario data for witnesses and counterexamples -/

/-- A well-formed provider tool named `shared`, used by two providers. -/
def sharedTool : MCPTool := ⟨some "shared", some "a shared tool", some (.obj [])⟩

/-- Two providers that both expose the tool `shared`. -/
def collisionConfig : MCPConfig := [("p1", ⟨.stdio, "cmd1"⟩), ("p2", ⟨.stdio, "cmd2"⟩)]

/-- Connection oracle for `collisionConfig`: provider `p1` gets session 1,
provider `p2` gets session 2, both listing the same tool name. -/
def collisionInit : String → ServerConfig → InitOutcome := fun name _ =>
  if name = "p1" then .ok 1 [sharedTool] else .ok 2 [sharedTool]

/-- Tool exposed by provider `p1` in the isolation scenario. -/
def isoTool1 : MCPTool := ⟨some "alpha", some "tool one", some (.obj [])⟩

/-- Tool exposed by provider `p3` in the isolation scenario. -/
def isoTool3 : MCPTool := ⟨some "gamma", some "tool three", some (.obj [])⟩

/-- Three configured providers; the middle one will fail to connect. -/
def isoConfig : MCPConfig :=
  [("p1", ⟨.stdio, "cmd1"⟩), ("p2", ⟨.sse, "url2"⟩), ("p3", ⟨.stdio, "cmd3"⟩)]

/-- Connection oracle for `isoConfig`: `p2` raises at connect. -/
def isoInit : String → ServerConfig → InitOutcome := fun name _ =>
  if name = "p1" then .ok 1 [isoTool1]
  else if name = "p3" then .ok 3 [isoTool3]
  else .raised "connection refused"

/-- A connection oracle under which every provider fails. -/
def noServers : String → ServerConfig → InitOutcome := fun _ _ => .failed

/-- Connection oracle where provider `pe` connects fine but lists zero
tools, while every other provider succeeds with one tool. -/
def emptyListInit : String → ServerConfig → InitOutcome := fun name _ =>
  if name = "pe" then .ok 5 [] else .ok 1 [isoTool1]

/-- A provider-invocation oracle that always succeeds with an empty string. -/
def noInvoke : Nat → String → JValue → InvokeOutcome := fun _ _ _ => .ok ""

/-- A model that raises on every invocation. -/
def raisingLLM : Nat → LLMOutcome := fun _ => .raised "boom"

/-- A model that requests one (unknown-name) tool call on every response. -/
def alwaysToolCallLLM : Nat → LLMOutcome :=
  fun _ => .reply "calling" [⟨"call-1", "mystery", some (.obj [])⟩]

/-- A model that always requests the local `get_weather` built-in with an
empty argument object (no `location` key). -/
def badWeatherLLM : Nat → LLMOutcome :=
  fun _ => .reply "calling" [⟨"call-1", "get_weather", some (.obj [])⟩]

/-- A context with no host actions and no MCP tools. -/
def emptyCtx : Ctx := ⟨[], [], [], noInvoke⟩

/-! ## Catalog unifier theorems (C4, C5) -/

/-- C4: `convert_mcp_tool_to_json_format` is total over every tool object
that carries `name` and `inputSchema` attributes (the structural-validity
check of the source), and whenever the parameter schema is missing (Python
`None`) or not a dict, the result's parameters are the empty-object schema
with no required fields. -/
theorem convert_total_and_defaults (tool : MCPTool) (n : String) (s : JValue)
    (hn : tool.name = some n) (hs : tool.inputSchema = some s) :
    ∃ ct, convert_mcp_tool_to_json_format tool = .ok ct ∧
      (s.isObj = false →
        ct.parameters.properties = .obj [] ∧ ct.parameters.required = .arr []) := by
  unfold convert_mcp_tool_to_json_format
  rw [hn, hs]
  simp only [Option.isNone_some, Bool.false_or]
  cases s with
  | null => exact ⟨_, rfl, fun _ => ⟨rfl, rfl⟩⟩
  | bool b =>
    refine ⟨_, rfl, fun _ => ?_⟩
    cases b <;> simp [JValue.truthy]
  | num m =>
    refine ⟨_, rfl, fun _ => ?_⟩
    by_cases h : m = 0 <;> simp [JValue.truthy, h]
  | str t =>
    refine ⟨_, rfl, fun _ => ?_⟩
    by_cases h : t = "" <;> simp [JValue.truthy, h]
  | arr xs =>
    refine ⟨_, rfl, fun _ => ?_⟩
    cases xs <;> simp [JValue.truthy]
  | obj fs =>
    refine ⟨_, rfl, fun h => ?_⟩
    simp [JValue.isObj] at h

/-- Witness for C4: a concrete tool whose `inputSchema` attribute holds
Python `None` converts successfully to the empty-object schema. -/
theorem convert_total_and_defaults_witness :
    ∃ ct, convert_mcp_tool_to_json_format ⟨some "echo", some "d", some .null⟩ = .ok ct ∧
      ((JValue.null).isObj = false →
        ct.parameters.properties = .obj [] ∧ ct.parameters.required = .arr []) :=
  convert_total_and_defaults ⟨some "echo", some "d", some .null⟩ "echo" .null rfl rfl

/-- C5: when the tool object has no `description` attribute, the converted
descriptor's description is exactly the synthesized string `"Tool: <name>"`. -/
theorem convert_missing_description (tool : MCPTool) (n : String) (s : JValue)
    (hn : tool.name = some n) (hd : tool.description = none)
    (hs : tool.inputSchema = some s) :
    ∃ ct, convert_mcp_tool_to_json_format tool = .ok ct ∧
      ct.description = "Tool: " ++ n := by
  unfold convert_mcp_tool_to_json_format
  rw [hn, hs, hd]
  simp only [Option.isNone_some, Bool.false_or]
  exact ⟨_, rfl, rfl⟩

/-- Witness for C5: a description-less tool named `add` converts to a
descriptor described as `Tool: add`. -/
theorem convert_missing_description_witness :
    ∃ ct, convert_mcp_tool_to_json_format ⟨some "add", none, some (.obj [])⟩ = .ok ct ∧
      ct.description = "Tool: " ++ "add" :=
  convert_missing_description ⟨some "add", none, some (.obj [])⟩ "add" (.obj []) rfl rfl rfl

/-! ## Dict lemmas -/

/-- Looking up the just-assigned key returns the assigned value. -/
theorem dictInsert_lookup_self {α : Type} (d : List (String × α)) (k : String) (v : α) :
    (dictInsert d k v).lookup k = some v := by
  induction d with
  | nil => simp [dictInsert, List.lookup_cons]
  | cons p rest ih =>
    obtain ⟨k', v'⟩ := p
    by_cases h : k' = k
    · simp [dictInsert, h, List.lookup_cons]
    · simp only [dictInsert, if_neg h, List.lookup_cons]
      rw [beq_false_of_ne (fun hh => h hh.symm)]
      exact ih

/-- Assignment to one key leaves lookups of other keys unchanged. -/
theorem dictInsert_lookup_ne {α : Type} (d : List (String × α)) (k k' : String) (v : α)
    (h : k' ≠ k) : (dictInsert d k v).lookup k' = d.lookup k' := by
  induction d with
  | nil => simp [dictInsert, List.lookup_cons, beq_false_of_ne h]
  | cons p rest ih =>
    obtain ⟨k0, v0⟩ := p
    by_cases h0 : k0 = k
    · subst h0
      simp [dictInsert, List.lookup_cons, beq_false_of_ne h]
    · simp only [dictInsert, if_neg h0, List.lookup_cons, ih]

/-! ## Session-manager isolation (C6, C10) and collision resolution (C3) -/

/-- Whether one config entry passes the `if session and tools` guard of
`initialize_servers`: a recognized transport, an initializer that neither
fails nor raises, and a non-empty tool list. Only such entries change the
accumulated result. -/
def server_contributes (init : String → ServerConfig → InitOutcome)
    (entry : String × ServerConfig) : Bool :=
  match entry.2.transport with
  | .other _ => false
  | _ =>
    match init entry.1 entry.2 with
    | .ok _ tools => !tools.isEmpty
    | _ => false

/-- A non-contributing entry (unsupported transport, failed or raising
initializer, or empty tool list) leaves the accumulator untouched. -/
theorem initStep_noncontrib (init : String → ServerConfig → InitOutcome)
    (acc : InitResult) (entry : String × ServerConfig)
    (h : server_contributes init entry = false) :
    initStep init acc entry = acc := by
  unfold server_contributes at h
  unfold initStep
  cases htr : entry.2.transport with
  | other s => rfl
  | stdio =>
    rw [htr] at h
    cases hi : init entry.1 entry.2 with
    | ok session tools =>
      rw [hi] at h
      simp only [Bool.not_eq_false'] at h
      simp [h]
    | failed => rfl
    | raised e => rfl
  | sse =>
    rw [htr] at h
    cases hi : init entry.1 entry.2 with
    | ok session tools =>
      rw [hi] at h
      simp only [Bool.not_eq_false'] at h
      simp [h]
    | failed => rfl
    | raised e => rfl

/-- Folding the provider loop over a config equals folding it over the
contributing entries only. -/
theorem foldl_initStep_filter (init : String → ServerConfig → InitOutcome)
    (cfg : MCPConfig) :
    ∀ acc : InitResult, cfg.foldl (initStep init) acc
      = (cfg.filter (server_contributes init)).foldl (initStep init) acc := by
  induction cfg with
  | nil => intro _; rfl
  | cons e rest ih =>
    intro acc
    by_cases h : server_contributes init e = true
    · simp only [List.foldl_cons, List.filter_cons, h, if_true]
      exact ih _
    · have h' : server_contributes init e = false := by
        cases hb : server_contributes init e
        · rfl
        · exact absurd hb h
      simp only [List.foldl_cons, List.filter_cons, h', Bool.false_eq_true, if_false,
        initStep_noncontrib init acc e h']
      exact ih _

/-- Shape of one provider-loop step: either the entry contributes nothing,
or it contributes (in particular registering its session under its own
name), leaving other session keys alone. -/
theorem initStep_sessions (init : String → ServerConfig → InitOutcome)
    (acc : InitResult) (entry : String × ServerConfig) :
    initStep init acc entry = acc ∨
      (server_contributes init entry = true ∧ ∃ s,
        (initStep init acc entry).active_sessions
          = dictInsert acc.active_sessions entry.1 s) := by
  unfold initStep server_contributes
  cases htr : entry.2.transport with
  | other s => exact Or.inl rfl
  | stdio =>
    cases hi : init entry.1 entry.2 with
    | ok session tools =>
      cases he : tools.isEmpty with
      | true => exact Or.inl (by simp [he])
      | false =>
        refine Or.inr ⟨by simp [he], session, ?_⟩
        simp only [he, Bool.false_eq_true, if_false]
        cases tools.mapM convert_mcp_tool_to_json_format <;> rfl
    | failed => exact Or.inl rfl
    | raised e => exact Or.inl rfl
  | sse =>
    cases hi : init entry.1 entry.2 with
    | ok session tools =>
      cases he : tools.isEmpty with
      | true => exact Or.inl (by simp [he])
      | false =>
        refine Or.inr ⟨by simp [he], session, ?_⟩
        simp only [he, Bool.false_eq_true, if_false]
        cases tools.mapM convert_mcp_tool_to_json_format <;> rfl
    | failed => exact Or.inl rfl
    | raised e => exact Or.inl rfl

/-- A session key can appear in the accumulator after one step only if it
was there before or the step's entry contributed it. -/
theorem initStep_sessions_lookup (init : String → ServerConfig → InitOutcome)
    (acc : InitResult) (entry : String × ServerConfig) (name : String)
    (h : ((initStep init acc entry).active_sessions.lookup name).isSome = true) :
    (acc.active_sessions.lookup name).isSome = true ∨
      (name = entry.1 ∧ server_contributes init entry = true) := by
  rcases initStep_sessions init acc entry with heq | ⟨hc, s, hs⟩
  · rw [heq] at h
    exact Or.inl h
  · by_cases hn : name = entry.1
    · exact Or.inr ⟨hn, hc⟩
    · rw [hs, dictInsert_lookup_ne _ _ _ _ hn] at h
      exact Or.inl h

/-- A session key present after the whole provider loop traces back to a
contributing config entry with that name. -/
theorem foldl_sessions_lookup (init : String → ServerConfig → InitOutcome)
    (cfg : MCPConfig) :
    ∀ (acc : InitResult) (name : String),
      (((cfg.foldl (initStep init) acc).active_sessions.lookup name).isSome = true) →
      (acc.active_sessions.lookup name).isSome = true ∨
        ∃ c, (name, c) ∈ cfg ∧ server_contributes init (name, c) = true := by
  induction cfg with
  | nil => intro acc name h; exact Or.inl h
  | cons e rest ih =>
    intro acc name h
    rw [List.foldl_cons] at h
    rcases ih (initStep init acc e) name h with h1 | ⟨c, hc, hcontrib⟩
    · rcases initStep_sessions_lookup init acc e name h1 with h2 | ⟨hn, hcontrib⟩
      · exact Or.inl h2
      · refine Or.inr ⟨e.2, ?_, ?_⟩
        · rw [hn]; exact List.mem_cons_self _ _
        · rw [hn]; simpa using hcontrib
    · exact Or.inr ⟨c, List.mem_cons_of_mem _ hc, hcontrib⟩

/-- C6: per-provider failures are isolated. `initialize_servers` over any
configuration returns exactly what it returns over the contributing
(non-failing) providers alone - failing providers (transport open failure,
handshake failure, `list_tools` failure, unrecognized transport) add no
tools, no dispatch entries and no session, succeeding providers keep all of
theirs, and the loop itself never raises; moreover every registered active
session traces back to a contributing provider of that name. -/
theorem initialize_servers_isolation (cfg : MCPConfig)
    (init : String → ServerConfig → InitOutcome) :
    initialize_servers cfg init
        = initialize_servers (cfg.filter (server_contributes init)) init ∧
      ∀ name : String,
        (((initialize_servers cfg init).active_sessions.lookup name).isSome = true) →
        ∃ c, (name, c) ∈ cfg ∧ server_contributes init (name, c) = true := by
  constructor
  · exact foldl_initStep_filter init cfg ⟨[], [], []⟩
  · intro name h
    rcases foldl_sessions_lookup init cfg ⟨[], [], []⟩ name h with h1 | h2
    · simp at h1
    · exact h2

/-- Witness for C6, on the spec's own scenario: three providers with the
middle one raising at connect; the result equals the run over the two
contributing providers, and `p1` registered a session because it
contributed. -/
theorem initialize_servers_isolation_witness :
    (initialize_servers isoConfig isoInit
        = initialize_servers (isoConfig.filter (server_contributes isoInit)) isoInit) ∧
      ∃ c, ("p1", c) ∈ isoConfig ∧ server_contributes isoInit ("p1", c) = true :=
  ⟨(initialize_servers_isolation isoConfig isoInit).1,
   (initialize_servers_isolation isoConfig isoInit).2 "p1" (by decide)⟩

/-- C10: a provider whose connection, handshake and `list_tools` all
succeed but whose tool list is empty is treated exactly like a failed
provider: the result is the same as if the provider were absent from the
configuration, and (when no other entry shares its name) it has no
`active_sessions` entry. -/
theorem empty_tool_list_like_failure (pre post : MCPConfig) (name : String)
    (cfg : ServerConfig) (init : String → ServerConfig → InitOutcome) (s : Nat)
    (hinit : init name cfg = .ok s []) :
    initialize_servers (pre ++ (name, cfg) :: post) init
        = initialize_servers (pre ++ post) init ∧
      ((∀ c : ServerConfig, (name, c) ∉ pre ++ post) →
        (initialize_servers (pre ++ (name, cfg) :: post) init).active_sessions.lookup name
          = none) := by
  have hnc : server_contributes init (name, cfg) = false := by
    unfold server_contributes
    cases htr : cfg.transport with
    | other x => simp [htr]
    | stdio => simp [htr, hinit]
    | sse => simp [htr, hinit]
  constructor
  · have h1 := foldl_initStep_filter init (pre ++ (name, cfg) :: post)
      (⟨[], [], []⟩ : InitResult)
    have h2 := foldl_initStep_filter init (pre ++ post) (⟨[], [], []⟩ : InitResult)
    unfold initialize_servers
    rw [h1, h2, List.filter_append, List.filter_append, List.filter_cons]
    simp [hnc]
  · intro habs
    cases hL : (initialize_servers (pre ++ (name, cfg) :: post) init).active_sessions.lookup name with
    | none => rfl
    | some v =>
      exfalso
      have hs : ((initialize_servers (pre ++ (name, cfg) :: post) init).active_sessions.lookup
          name).isSome = true := by rw [hL]; rfl
      rcases foldl_sessions_lookup init (pre ++ (name, cfg) :: post) ⟨[], [], []⟩ name hs with
        h3 | ⟨c, hmem, hcon⟩
      · simp at h3
      · rcases List.mem_append.mp hmem with hm1 | hm2
        · exact habs c (List.mem_append.mpr (Or.inl hm1))
        · rcases List.mem_cons.mp hm2 with heq | hm3
          · injection heq with hn1 hn2
            rw [hn2, hnc] at hcon
            exact Bool.false_ne_true hcon
          · exact habs c (List.mem_append.mpr (Or.inr hm3))

/-- Witness for C10: provider `pe` connects and lists zero tools; the run
equals the run without `pe`, and `pe` holds no active session. -/
theorem empty_tool_list_like_failure_witness :
    (initialize_servers [("p1", ⟨.stdio, "cmd1"⟩), ("pe", ⟨.stdio, "cmde"⟩)] emptyListInit
        = initialize_servers [("p1", ⟨.stdio, "cmd1"⟩)] emptyListInit) ∧
      (initialize_servers [("p1", ⟨.stdio, "cmd1"⟩), ("pe", ⟨.stdio, "cmde"⟩)]
          emptyListInit).active_sessions.lookup "pe" = none := by
  have h := empty_tool_list_like_failure [("p1", ⟨.stdio, "cmd1"⟩)] [] "pe" ⟨.stdio, "cmde"⟩
    emptyListInit 5 rfl
  refine ⟨h.1, h.2 (fun c hc => ?_)⟩
  simp at hc

/-- C3 counterexample: two providers (`p1` with session 1, then `p2` with
session 2 in configuration order) both expose a tool named `shared`.
`dict.update` overwrites, so the dispatch table maps `shared` to the
second-registered provider's session 2, not to the first-registered owner
as the claim states - and no warning of any kind is emitted on this path. -/
theorem collision_not_first_registered :
    ((initialize_servers collisionConfig collisionInit).mcp_tools_dict.lookup "shared")
        = some (2, sharedTool) ∧ (2 : Nat) ≠ 1 := by
  constructor
  · rfl
  · decide

/-- Shape of one provider-loop step for a contributing provider exposing a
single tool that converts successfully. -/
theorem initStep_single_tool (init : String → ServerConfig → InitOutcome)
    (acc : InitResult) (pname : String) (pcfg : ServerConfig) (s : Nat) (t : MCPTool)
    (htr : ∀ x, pcfg.transport ≠ .other x)
    (hinit : init pname pcfg = .ok s [t])
    (ct : ConvertedTool) (hct : convert_mcp_tool_to_json_format t = .ok ct) :
    initStep init acc (pname, pcfg)
      = { all_tools := acc.all_tools ++ [ct]
          mcp_tools_dict := dictInsert acc.mcp_tools_dict t.nameD (s, t)
          active_sessions := dictInsert acc.active_sessions pname s } := by
  obtain ⟨tr, par⟩ := pcfg
  cases tr with
  | other x => exact absurd rfl (htr x)
  | stdio =>
    unfold initStep
    have hml : List.mapM.loop convert_mcp_tool_to_json_format [t] [] = .ok [ct] := by
      simp [List.mapM.loop, hct]
    simp [hinit, hml, dictUpdate]
  | sse =>
    unfold initStep
    have hml : List.mapM.loop convert_mcp_tool_to_json_format [t] [] = .ok [ct] := by
      simp [List.mapM.loop, hct]
    simp [hinit, hml, dictUpdate]

/-- C3 amended: a tool-name collision between providers is resolved
last-registered-wins (providers in configuration iteration order, the dict
update overwriting earlier entries) with no warning emitted: whatever
earlier providers registered under a name, the dispatch table maps it to
the last provider registering it. At dispatch time host actions still take
precedence over provider tools, but a provider tool sharing a name with
the local built-in `get_weather` shadows the built-in (the MCP branch is
checked before `tool_handlers`): any requested name in `mcp_tool_names`
and not a host action is routed to the provider. -/
theorem collision_last_registered_wins (cfg : MCPConfig)
    (init : String → ServerConfig → InitOutcome) (pname : String)
    (pcfg : ServerConfig) (s : Nat) (t : MCPTool) (n : String)
    (htr : ∀ x, pcfg.transport ≠ .other x)
    (hinit : init pname pcfg = .ok s [t])
    (hn : t.name = some n)
    (hconv : exceptOk (convert_mcp_tool_to_json_format t) = true) :
    ((initialize_servers (cfg ++ [(pname, pcfg)]) init).mcp_tools_dict.lookup n
        = some (s, t)) ∧
      (∀ (ctx : Ctx) (tc : ToolCall) (rest : List ToolCall) (msgs : List Message),
        tc.name ∉ ctx.hostActions → tc.name ∈ ctx.mcp_tool_names →
        exec_tool_calls ctx (tc :: rest) msgs
          = exec_tool_calls ctx rest
              (msgs ++ [.tool (execute_tool ctx.invoke tc.name (parseToolCallArgs tc)
                ctx.mcp_tools_dict) tc.id])) := by
  constructor
  · obtain ⟨ct, hct⟩ : ∃ ct, convert_mcp_tool_to_json_format t = .ok ct := by
      cases hc : convert_mcp_tool_to_json_format t with
      | error e => rw [hc] at hconv; exact absurd hconv (by simp [exceptOk])
      | ok ct => exact ⟨ct, rfl⟩
    unfold initialize_servers
    rw [List.foldl_append, List.foldl_cons, List.foldl_nil,
      initStep_single_tool init _ pname pcfg s t htr hinit ct hct]
    have hnd : t.nameD = n := by simp [MCPTool.nameD, hn]
    rw [hnd]
    exact dictInsert_lookup_self _ _ _
  · intro ctx tc rest msgs h1 h2
    rw [exec_tool_calls.eq_def]
    simp [h1, h2]

/-- Witness for the amended C3: with the two colliding providers of the
counterexample, the dispatch table maps `shared` to the last-registered
session 2; and a call named `get_weather` that is listed as an MCP tool
name is routed to the provider, not to the local built-in. -/
theorem collision_last_registered_wins_witness :
    ((initialize_servers ([("p1", ⟨.stdio, "cmd1"⟩)] ++ [("p2", ⟨.stdio, "cmd2"⟩)])
        collisionInit).mcp_tools_dict.lookup "shared" = some (2, sharedTool)) ∧
      (exec_tool_calls ⟨[], ["get_weather"], [], noInvoke⟩
          [⟨"id-3", "get_weather", none⟩] []
        = exec_tool_calls ⟨[], ["get_weather"], [], noInvoke⟩ []
            ([] ++ [.tool (execute_tool noInvoke "get_weather"
              (parseToolCallArgs ⟨"id-3", "get_weather", none⟩) []) "id-3"])) := by
  have h := collision_last_registered_wins [("p1", ⟨.stdio, "cmd1"⟩)] collisionInit
    "p2" ⟨.stdio, "cmd2"⟩ 2 sharedTool "shared"
    (fun x => by simp) rfl rfl rfl
  exact ⟨h.1, h.2 ⟨[], ["get_weather"], [], noInvoke⟩ ⟨"id-3", "get_weather", none⟩ [] []
    (by simp) (by simp)⟩

/-! ## Tool-call loop steps (C8, C9) -/

/-- C8: a requested tool whose name is neither a host action, nor an MCP
tool name, nor a local built-in (`tool_handlers` holds only `get_weather`)
appends a tool-role message with content exactly `"Unknown tool: <name>"`
carrying the originating `tool_call_id`, and the loop continues with the
remaining pending calls instead of aborting. -/
theorem unknown_tool_appends_message (ctx : Ctx) (tc : ToolCall)
    (rest : List ToolCall) (msgs : List Message)
    (h1 : tc.name ∉ ctx.hostActions) (h2 : tc.name ∉ ctx.mcp_tool_names)
    (h3 : tc.name ≠ "get_weather") :
    exec_tool_calls ctx (tc :: rest) msgs
      = exec_tool_calls ctx rest
          (msgs ++ [.tool ("Unknown tool: " ++ tc.name) tc.id]) := by
  rw [exec_tool_calls.eq_def]
  simp [h1, h2, tool_handlers, h3]

/-- Witness for C8: a single unknown call named `mystery` with id `id-1`
in an empty context appends exactly the unknown-tool message. -/
theorem unknown_tool_appends_message_witness :
    exec_tool_calls emptyCtx [⟨"id-1", "mystery", none⟩] []
      = exec_tool_calls emptyCtx []
          ([] ++ [.tool ("Unknown tool: " ++ "mystery") "id-1"]) :=
  unknown_tool_appends_message emptyCtx ⟨"id-1", "mystery", none⟩ [] []
    (by simp [emptyCtx]) (by simp [emptyCtx]) (by simp)

/-- C9: a requested tool whose name is a host action is skipped entirely:
no execution happens for it, no tool-role message is appended for its call
id (the conversation passed on is unchanged), and the loop continues with
the remaining pending calls without error. -/
theorem host_action_skipped (ctx : Ctx) (tc : ToolCall)
    (rest : List ToolCall) (msgs : List Message)
    (h : tc.name ∈ ctx.hostActions) :
    exec_tool_calls ctx (tc :: rest) msgs = exec_tool_calls ctx rest msgs := by
  rw [exec_tool_calls.eq_def]
  simp [h]

/-- Witness for C9: a call to the host action `approve` leaves the
conversation untouched and moves on. -/
theorem host_action_skipped_witness :
    exec_tool_calls ⟨["approve"], [], [], noInvoke⟩ [⟨"id-2", "approve", none⟩] []
      = exec_tool_calls ⟨["approve"], [], [], noInvoke⟩ [] [] :=
  host_action_skipped ⟨["approve"], [], [], noInvoke⟩ ⟨"id-2", "approve", none⟩ [] []
    (by simp)

/-! ## Dispatch-loop lemmas -/

/-- The weather lambda only ever raises dict-access errors, modelled as
`handlerError`. -/
theorem get_weather_handler_error (args : JValue) (e : AgentErr)
    (h : get_weather_handler args = .error e) : ∃ m, e = .handlerError m := by
  cases args with
  | obj fields =>
    unfold get_weather_handler at h
    simp only at h
    cases hl : fields.lookup "location" with
    | some v => rw [hl] at h; simp at h
    | none =>
      rw [hl] at h
      simp only [Except.error.injEq] at h
      exact ⟨_, h.symm⟩
  | null =>
    unfold get_weather_handler at h
    simp only [Except.error.injEq] at h
    exact ⟨_, h.symm⟩
  | bool b =>
    unfold get_weather_handler at h
    simp only [Except.error.injEq] at h
    exact ⟨_, h.symm⟩
  | num n =>
    unfold get_weather_handler at h
    simp only [Except.error.injEq] at h
    exact ⟨_, h.symm⟩
  | str s =>
    unfold get_weather_handler at h
    simp only [Except.error.injEq] at h
    exact ⟨_, h.symm⟩
  | arr xs =>
    unfold get_weather_handler at h
    simp only [Except.error.injEq] at h
    exact ⟨_, h.symm⟩

/-- The only exception the tool-call loop can propagate is a local-handler
exception: host actions, MCP tools and unknown names never raise. -/
theorem exec_tool_calls_error_handler (ctx : Ctx) :
    ∀ (l : List ToolCall) (msgs : List Message) (e : AgentErr) (ms : List Message),
      exec_tool_calls ctx l msgs = .error (e, ms) → ∃ m, e = .handlerError m := by
  intro l
  induction l with
  | nil =>
    intro msgs e ms h
    simp [exec_tool_calls] at h
  | cons tc rest ih =>
    intro msgs e ms h
    rw [exec_tool_calls.eq_def] at h
    simp only at h
    by_cases h1 : tc.name ∈ ctx.hostActions
    · rw [if_pos h1] at h
      exact ih _ _ _ h
    · rw [if_neg h1] at h
      by_cases h2 : tc.name ∈ ctx.mcp_tool_names
      · rw [if_pos h2] at h
        exact ih _ _ _ h
      · rw [if_neg h2] at h
        by_cases h3 : tc.name = "get_weather"
        · have hth : tool_handlers tc.name = some get_weather_handler := by
            simp [tool_handlers, h3]
          rw [hth] at h
          simp only at h
          cases hr : get_weather_handler (parseToolCallArgs tc) with
          | ok r =>
            rw [hr] at h
            simp only at h
            exact ih _ _ _ h
          | error e0 =>
            rw [hr] at h
            simp only [Except.error.injEq, Prod.mk.injEq] at h
            obtain ⟨he, -⟩ := h
            obtain ⟨m, hm⟩ := get_weather_handler_error _ _ hr
            exact ⟨m, he ▸ hm⟩
        · have hth : tool_handlers tc.name = none := by
            simp [tool_handlers, h3]
          rw [hth] at h
          simp only at h
          exact ih _ _ _ h

/-- A batch of raise-free tool calls always executes to a success. -/
theorem exec_tool_calls_safe_ok (ctx : Ctx) :
    ∀ (l : List ToolCall), (∀ tc ∈ l, execSafe ctx tc = true) →
      ∀ msgs, ∃ ms, exec_tool_calls ctx l msgs = .ok ms := by
  intro l
  induction l with
  | nil => intro _ msgs; exact ⟨msgs, rfl⟩
  | cons tc rest ih =>
    intro hsafe msgs
    have htc := hsafe tc (List.mem_cons_self _ _)
    have hrest : ∀ x ∈ rest, execSafe ctx x = true :=
      fun x hx => hsafe x (List.mem_cons_of_mem _ hx)
    rw [exec_tool_calls.eq_def]
    simp only
    by_cases h1 : tc.name ∈ ctx.hostActions
    · rw [if_pos h1]
      exact ih hrest _
    · rw [if_neg h1]
      by_cases h2 : tc.name ∈ ctx.mcp_tool_names
      · rw [if_pos h2]
        exact ih hrest _
      · rw [if_neg h2]
        by_cases h3 : tc.name = "get_weather"
        · have hth : tool_handlers tc.name = some get_weather_handler := by
            simp [tool_handlers, h3]
          have hok : exceptOk (get_weather_handler (parseToolCallArgs tc)) = true := by
            unfold execSafe at htc
            rw [if_neg h1, if_neg h2, hth] at htc
            simpa using htc
          rw [hth]
          simp only
          cases hr : get_weather_handler (parseToolCallArgs tc) with
          | ok r =>
            simp only
            exact ih hrest _
          | error e0 =>
            rw [hr] at hok
            simp [exceptOk] at hok
        · have hth : tool_handlers tc.name = none := by
            simp [tool_handlers, h3]
          rw [hth]
          simp only
          exact ih hrest _

/-- Cleanup never runs inside the loop body: the event trace produced by
`process_llm_call`, on both the success and the exception path, contains
exactly the cleanup events the initial state already had. -/
theorem process_llm_call_cleanupCount (llm : Nat → LLMOutcome) (ctx : Ctx)
    (idx : Nat) (σ : AgentSt) :
    cleanupCount (resSt (process_llm_call llm ctx idx σ)).events
      = cleanupCount σ.events := by
  induction idx, σ using process_llm_call.induct llm ctx with
  | case1 idx σ e h =>
    rw [process_llm_call.eq_def, h]
    simp [resSt, cleanupCount, isCleanup, List.countP_append]
  | case2 idx σ content tool_calls h hemp =>
    rw [process_llm_call.eq_def, h]
    simp only
    rw [if_pos hemp]
    simp [resSt, cleanupCount, isCleanup, List.countP_append]
  | case3 idx σ content tool_calls h hne hstop =>
    rw [process_llm_call.eq_def, h]
    simp only
    rw [if_neg hne, dif_pos hstop]
    simp [resSt, cleanupCount, isCleanup, List.countP_append]
  | case4 idx σ content tool_calls h hne hstop e msgs hexec =>
    rw [process_llm_call.eq_def, h]
    simp only
    rw [if_neg hne, dif_neg hstop, hexec]
    simp [resSt, cleanupCount, isCleanup, List.countP_append]
  | case5 idx σ content tool_calls h hne hstop msgs hexec ih =>
    rw [process_llm_call.eq_def, h]
    simp only
    rw [if_neg hne, dif_neg hstop, hexec]
    simp only
    rw [ih]
    simp [cleanupCount, isCleanup, List.countP_append]

/-- When the loop propagates a model-invocation failure, the state at raise
time ends with the LLM-call event itself: nothing further executed. -/
theorem process_llm_call_invocation_last (llm : Nat → LLMOutcome) (ctx : Ctx) :
    ∀ (idx : Nat) (σ : AgentSt) (e : String) (σ' : AgentSt),
      process_llm_call llm ctx idx σ = .error (.invocation e, σ') →
      ∃ i, σ'.events.getLast? = some (.llmCall i) := by
  intro idx σ
  induction idx, σ using process_llm_call.induct llm ctx with
  | case1 idx σ eM h =>
    intro e σ' heq
    rw [process_llm_call.eq_def, h] at heq
    simp only [Except.error.injEq, Prod.mk.injEq] at heq
    obtain ⟨-, hσ⟩ := heq
    rw [← hσ]
    exact ⟨idx, List.getLast?_concat _⟩
  | case2 idx σ content tool_calls h hemp =>
    intro e σ' heq
    rw [process_llm_call.eq_def, h] at heq
    simp only at heq
    rw [if_pos hemp] at heq
    simp at heq
  | case3 idx σ content tool_calls h hne hstop =>
    intro e σ' heq
    rw [process_llm_call.eq_def, h] at heq
    simp only at heq
    rw [if_neg hne, dif_pos hstop] at heq
    simp at heq
  | case4 idx σ content tool_calls h hne hstop e0 msgs hexec =>
    intro e σ' heq
    rw [process_llm_call.eq_def, h] at heq
    simp only at heq
    rw [if_neg hne, dif_neg hstop, hexec] at heq
    simp only [Except.error.injEq, Prod.mk.injEq] at heq
    obtain ⟨he, -⟩ := heq
    obtain ⟨m, hm⟩ := exec_tool_calls_error_handler ctx tool_calls _ e0 msgs hexec
    rw [hm] at he
    exact absurd he (by simp)
  | case5 idx σ content tool_calls h hne hstop msgs hexec ih =>
    intro e σ' heq
    rw [process_llm_call.eq_def, h] at heq
    simp only at heq
    rw [if_neg hne, dif_neg hstop, hexec] at heq
    simp only at heq
    exact ih e σ' heq

/-! ## Guaranteed cleanup (C1) -/

/-- C1: for every run of `chat` - whatever the MCP configuration, the
provider behaviour, the tool invocations and the model behaviour, so in
particular on normal completion, on reaching the iteration bound, and on
any unhandled exception from model invocation or tool execution - the
`finally` block runs `MCPToolManager.cleanup` exactly once, after all loop
activity and before control returns to the caller. -/
theorem chat_cleanup_exactly_once (mcp_config : MCPConfig)
    (init : String → ServerConfig → InitOutcome)
    (invoke : Nat → String → JValue → InvokeOutcome)
    (llm : Nat → LLMOutcome) (hostActions : List String) (messages0 : List Message) :
    ∃ r, chat mcp_config init invoke llm hostActions messages0 = .ok r ∧
      cleanupCount r.events = 1 ∧ r.events.getLast? = some .cleanup := by
  have hc := process_llm_call_cleanupCount llm
    (buildCtx (initialize_servers mcp_config init) hostActions invoke) 0
    { messages := messages0, tool_call_count := 0, events := [] }
  unfold chat
  simp only
  cases hp : process_llm_call llm
      (buildCtx (initialize_servers mcp_config init) hostActions invoke) 0
      { messages := messages0, tool_call_count := 0, events := [] } with
  | ok σ =>
    rw [hp] at hc
    have hc0 : σ.events.countP isCleanup = 0 := by
      simpa [resSt, cleanupCount] using hc
    refine ⟨_, rfl, ?_, List.getLast?_concat _⟩
    simp [cleanupCount, List.countP_append, isCleanup, hc0]
  | error p =>
    obtain ⟨e, σ⟩ := p
    rw [hp] at hc
    have hc0 : σ.events.countP isCleanup = 0 := by
      simpa [resSt, cleanupCount] using hc
    refine ⟨_, rfl, ?_, List.getLast?_concat _⟩
    simp [cleanupCount, List.countP_append, isCleanup, hc0]

/-- Witness for C1 on a concrete exceptional run: the model raises at once,
and cleanup still runs exactly once, last. -/
theorem chat_cleanup_exactly_once_witness :
    ∃ r, chat [] noServers noInvoke raisingLLM [] [] = .ok r ∧
      cleanupCount r.events = 1 ∧ r.events.getLast? = some .cleanup :=
  chat_cleanup_exactly_once [] noServers noInvoke raisingLLM [] []

/-! ## Bounded iteration (C2) -/

/-- Core bound lemma: if every model response carries a non-empty,
raise-free batch of tool calls, then from any state whose counter is `k`
short of the bound the loop succeeds, the final counter is exactly
`MAX_TOOL_CALLS`, the counter takes the consecutive values up to the bound
(strictly increasing, never reset), and there are `k` LLM calls but only
`k - 1` executed batches: the final pending batch is never executed. -/
theorem process_always_toolcalls (llm : Nat → LLMOutcome) (ctx : Ctx)
    (h : ∀ i, ∃ c tcs, llm i = .reply c tcs ∧ tcs.isEmpty = false ∧
          ∀ tc ∈ tcs, execSafe ctx tc = true) :
    ∀ k, 1 ≤ k → k ≤ MAX_TOOL_CALLS → ∀ (idx : Nat) (σ : AgentSt),
      σ.tool_call_count + k = MAX_TOOL_CALLS →
      ∃ σ', process_llm_call llm ctx idx σ = .ok σ' ∧
        σ'.tool_call_count = MAX_TOOL_CALLS ∧
        counterTrace σ'.events
          = counterTrace σ.events ++ List.range' (σ.tool_call_count + 1) k ∧
        σ'.events.countP isExecBatch = σ.events.countP isExecBatch + (k - 1) ∧
        σ'.events.countP isLLMCall = σ.events.countP isLLMCall + k := by
  intro k
  induction k with
  | zero => intro h1; exact absurd h1 (by omega)
  | succ k ih =>
    intro _ hk2 idx σ hcount
    obtain ⟨c, tcs, hllm, hne, hsafe⟩ := h idx
    have hne' : ¬tcs.isEmpty = true := by simp [hne]
    rw [process_llm_call.eq_def, hllm]
    simp only
    rw [if_neg hne']
    by_cases hk0 : k = 0
    · subst hk0
      have hguard : MAX_TOOL_CALLS ≤ σ.tool_call_count + 1 := by omega
      rw [dif_pos hguard]
      refine ⟨_, rfl, by simp; omega, ?_, ?_, ?_⟩
      · simp [counterTrace, List.filterMap_append, List.range']
      · simp [List.countP_append, isExecBatch, List.countP_cons]
      · simp [List.countP_append, isLLMCall, List.countP_cons]
    · have hguard : ¬MAX_TOOL_CALLS ≤ σ.tool_call_count + 1 := by omega
      rw [dif_neg hguard]
      obtain ⟨ms, hexec⟩ := exec_tool_calls_safe_ok ctx tcs hsafe
        (σ.messages ++ [.assistant c tcs])
      rw [hexec]
      simp only
      obtain ⟨σ', hp, hcnt, htr, hb, hl⟩ := ih (by omega) (by omega) (idx + 1)
        { messages := ms, tool_call_count := σ.tool_call_count + 1
          events := σ.events ++ [.llmCall idx, .counterInc (σ.tool_call_count + 1), .execBatch] }
        (by simp; omega)
      refine ⟨σ', hp, hcnt, ?_, ?_, ?_⟩
      · rw [htr]
        simp only [counterTrace, List.filterMap_append]
        simp [List.range'_succ, counterTrace]
      · rw [hb]
        simp only [List.countP_append]
        simp [isExecBatch, List.countP_cons]
        omega
      · rw [hl]
        simp only [List.countP_append]
        simp [isLLMCall, List.countP_cons]
        omega

/-- C2 amended: with a model that returns tool-call requests on every
response, and whose requested calls never make the one locally-raising
handler (the `get_weather` lambda) raise, a fresh run performs
exactly `MAX_TOOL_CALLS = 10` dispatch-loop iterations: the counter climbs
strictly from 1 to 10 with no reset, ten LLM calls are made, and only nine
tool batches execute - the tenth response's pending tool calls are never
executed because the bound forces the transition to Terminal. -/
theorem bounded_iterations (llm : Nat → LLMOutcome) (ctx : Ctx)
    (h : ∀ i, ∃ c tcs, llm i = .reply c tcs ∧ tcs.isEmpty = false ∧
          ∀ tc ∈ tcs, execSafe ctx tc = true) (messages0 : List Message) :
    ∃ σ', process_llm_call llm ctx 0
        { messages := messages0, tool_call_count := 0, events := [] } = .ok σ' ∧
      σ'.tool_call_count = MAX_TOOL_CALLS ∧
      counterTrace σ'.events = List.range' 1 MAX_TOOL_CALLS ∧
      σ'.events.countP isExecBatch = MAX_TOOL_CALLS - 1 ∧
      σ'.events.countP isLLMCall = MAX_TOOL_CALLS := by
  obtain ⟨σ', h1, h2, h3, h4, h5⟩ := process_always_toolcalls llm ctx h MAX_TOOL_CALLS
    (by decide) (le_refl _) 0 { messages := messages0, tool_call_count := 0, events := [] }
    (by simp)
  refine ⟨σ', h1, h2, ?_, ?_, ?_⟩
  · simpa [counterTrace] using h3
  · simpa using h4
  · simpa using h5

/-- C2 counterexample: a model that returns a tool-call request on every
response but whose first request is `get_weather` with an empty argument
object makes the local lambda raise `KeyError` at the first batch; the run
aborts through the exception path with `tool_call_count = 1`, so the loop
does not perform the claimed 10 iterations even though the model returned
tool calls on every response it got to give. -/
theorem bounded_iterations_counterexample :
    process_llm_call badWeatherLLM emptyCtx 0
        { messages := [], tool_call_count := 0, events := [] }
      = .error (.handlerError "KeyError: location",
          { messages := [.assistant "calling" [⟨"call-1", "get_weather", some (.obj [])⟩]]
            tool_call_count := 1
            events := [.llmCall 0, .counterInc 1, .execBatch] }) ∧
      (1 : Nat) ≠ MAX_TOOL_CALLS := by
  constructor
  · rw [process_llm_call.eq_def]
    rfl
  · decide

/-- Witness for C2 (amended): a concrete model that always requests one
unknown-name tool call drives a fresh run to exactly the bound. -/
theorem bounded_iterations_witness :
    ∃ σ', process_llm_call alwaysToolCallLLM emptyCtx 0
        { messages := [], tool_call_count := 0, events := [] } = .ok σ' ∧
      σ'.tool_call_count = MAX_TOOL_CALLS ∧
      counterTrace σ'.events = List.range' 1 MAX_TOOL_CALLS ∧
      σ'.events.countP isExecBatch = MAX_TOOL_CALLS - 1 ∧
      σ'.events.countP isLLMCall = MAX_TOOL_CALLS :=
  bounded_iterations alwaysToolCallLLM emptyCtx
    (fun i => ⟨"calling", [⟨"call-1", "mystery", some (.obj [])⟩], rfl, rfl, by
      intro tc htc
      simp at htc
      subst htc
      decide⟩) []

/-! ## Invocation failure handling (C7) -/

/-- C7 counterexample: with a model that raises on its first invocation,
`chat` returns normally (`.ok` with the usual `"route_end"` route) - the
`except Exception` block catches and logs the invocation error, so the
exception is swallowed, not re-raised to the caller as the claim states.
Cleanup does run before control returns (the trailing cleanup event). -/
theorem invocation_error_swallowed :
    chat [] noServers noInvoke raisingLLM [] []
      = .ok { route := "route_end", messages := [], tool_call_count := 0,
              events := [.llmCall 0, .cleanup] } := by
  have hp : process_llm_call raisingLLM
      (buildCtx (initialize_servers [] noServers) [] noInvoke) 0
      { messages := [], tool_call_count := 0, events := [] }
      = .error (.invocation "boom",
          { messages := [], tool_call_count := 0, events := [.llmCall 0] }) := by
    rw [process_llm_call.eq_def]
    rfl
  unfold chat
  simp only
  rw [hp]
  rfl

/-- C7 amended: a model-invocation failure aborts the run outright (the
loop propagates it, and the state at raise time ends with the failing LLM
call - nothing further executed), `cleanup` runs before control returns,
but the exception is then caught at the `chat` boundary and logged:
`chat` returns the normal `"route_end"` result instead of re-raising. -/
theorem invocation_error_cleanup_then_caught (mcp_config : MCPConfig)
    (init : String → ServerConfig → InitOutcome)
    (invoke : Nat → String → JValue → InvokeOutcome)
    (llm : Nat → LLMOutcome) (hostActions : List String) (messages0 : List Message)
    (e : String) (σ : AgentSt)
    (h : process_llm_call llm (buildCtx (initialize_servers mcp_config init) hostActions invoke)
          0 { messages := messages0, tool_call_count := 0, events := [] }
        = .error (.invocation e, σ)) :
    chat mcp_config init invoke llm hostActions messages0
        = .ok { route := "route_end", messages := σ.messages,
                tool_call_count := σ.tool_call_count, events := σ.events ++ [.cleanup] } ∧
      ∃ i, σ.events.getLast? = some (.llmCall i) := by
  constructor
  · unfold chat
    simp only
    rw [h]
  · exact process_llm_call_invocation_last llm _ 0 _ e σ h

/-- Witness for the amended C7: the raising model concretely. -/
theorem invocation_error_cleanup_then_caught_witness :
    (chat [] noServers noInvoke raisingLLM [] []
        = .ok { route := "route_end", messages := [], tool_call_count := 0,
                events := [Event.llmCall 0] ++ [.cleanup] }) ∧
      ∃ i, [Event.llmCall 0].getLast? = some (.llmCall i) := by
  have hp : process_llm_call raisingLLM
      (buildCtx (initialize_servers [] noServers) [] noInvoke) 0
      { messages := [], tool_call_count := 0, events := [] }
      = .error (.invocation "boom",
          { messages := [], tool_call_count := 0, events := [.llmCall 0] }) := by
    rw [process_llm_call.eq_def]
    rfl
  exact invocation_error_cleanup_then_caught [] noServers noInvoke raisingLLM [] []
    "boom" { messages := [], tool_call_count := 0, events := [.llmCall 0] } hp

end OpenMcp
